import Mathlib

/-!
# Verification of the OurRecipes recipe catalog core

A shallow embedding of the core of the OurRecipes application
(`recipe-app.jsx`): the tag taxonomy, the similarity engine
(`findSimilarRecipes`), the free-text importer (`parseText` with its
block splitter and `parseRecipeBlock`), the JSON importer (`parseJSON`),
and the import entry point (`handleImport`).

The JavaScript source works with Unicode strings and regular
expressions.  The embedding works over `List Char` with the regular
expressions hand-translated to explicit, executable matching functions
that follow the backtracking behaviour of the original patterns.  Case
conversion (`toLowerCase`/`toUpperCase`) is modelled by Lean's
ASCII-only `Char.toLower`/`Char.toUpper`; every string the taxonomy and
the claims compare is ASCII, so the model agrees with JavaScript there.
JavaScript `\s` is modelled by the ASCII whitespace characters.
Record ids are produced by `Date.now() + Math.random()` in the source, a
nondeterministic fresh value; the embedding uses the placeholder id `0`
(no claim depends on parser-assigned ids).
-/

namespace OurRecipes

/-- Character lists; the carrier for all text processing. -/
abbrev Str := List Char

/-- JavaScript `\s` (ASCII part): space, tab, newline, carriage
return, vertical tab, form feed. -/
def isJsSpace (c : Char) : Bool :=
  c == ' ' || c == '\t' || c == '\n' || c == '\r' || c == '\x0b' || c == '\x0c'

/-- `String.prototype.trim`, dropping leading whitespace. -/
def jsTrimL (s : Str) : Str := s.dropWhile isJsSpace

/-- `String.prototype.trim` on both ends. -/
def jsTrim (s : Str) : Str := ((s.dropWhile isJsSpace).reverse.dropWhile isJsSpace).reverse

/-- Lowercase a char list (models `toLowerCase` on ASCII). -/
def lowerStr (s : Str) : Str := s.map Char.toLower

/-- Lowercase a `String` (models `toLowerCase` on ASCII). -/
def jsToLowerS (s : String) : String := String.mk (lowerStr s.data)

/-- `a.split(sep)` for a single separator character. -/
def splitOnChar (sep : Char) : Str → List Str
  | [] => [[]]
  | c :: cs =>
    if c = sep then [] :: splitOnChar sep cs
    else
      match splitOnChar sep cs with
      | [] => [[c]]
      | p :: ps => (c :: p) :: ps

/-- `a.split(/[,|]/)`: split at every occurrence of one of the given
separator characters. -/
def splitOnAnyChar (seps : List Char) : Str → List Str
  | [] => [[]]
  | c :: cs =>
    if seps.contains c then [] :: splitOnAnyChar seps cs
    else
      match splitOnAnyChar seps cs with
      | [] => [[c]]
      | p :: ps => (c :: p) :: ps

/-- Case-insensitive character comparison (ASCII case folding, the
model of a regex `/i` flag). -/
def ciEq (a b : Char) : Bool := a.toLower == b.toLower

/-- Case-insensitively drop a literal pattern from the front of `s`,
returning the remainder on success. -/
def dropPrefixCI : Str → Str → Option Str
  | [], s => some s
  | _ :: _, [] => none
  | p :: ps, c :: cs => if ciEq p c then dropPrefixCI ps cs else none

/-- Exact-match variant of `dropPrefixCI`. -/
def dropPrefixEq : Str → Str → Option Str
  | [], s => some s
  | _ :: _, [] => none
  | p :: ps, c :: cs => if p = c then dropPrefixEq ps cs else none

/-- Case-insensitive substring containment, the model of
`hay.includes(needle)` after both sides were case-folded by the
caller (the source always lowercases explicitly, so the containment
itself is exact). -/
def includesStr (needle : Str) : Str → Bool
  | [] => (dropPrefixEq needle []).isSome
  | c :: cs => (dropPrefixEq needle (c :: cs)).isSome || includesStr needle cs

/-- Case-insensitive substring search: does any position of `hay`
start with `needle` up to ASCII case?  Models `/needle/i.test(hay)`
for a literal `needle`. -/
def containsCI (needle : Str) : Str → Bool
  | [] => (dropPrefixCI needle []).isSome
  | c :: cs => (dropPrefixCI needle (c :: cs)).isSome || containsCI needle cs

/-- `alts.some(a => hay contains a, case-insensitively)`: the model of
an alternation regex such as `/(?:breakfast|brekkie)/i` used as a pure
match test. -/
def containsAnyCI (alts : List Str) (hay : Str) : Bool :=
  alts.any (fun a => containsCI a hay)

/-- Run a position matcher at every start position from left to right
and return the first (leftmost) success: the search behaviour of
`String.prototype.match`. -/
def searchFrom {α : Type} (f : Str → Option α) : Str → Option α
  | [] => f []
  | c :: cs =>
    match f (c :: cs) with
    | some r => some r
    | none => searchFrom f cs

/-- Try each literal alternative in order at the current position;
when one matches case-insensitively, run the tail matcher on the
remainder, falling through to the next alternative when the tail
fails.  This is the backtracking behaviour of a regex alternation
`(?:a|b|…)` followed by further pattern parts.  Alternative lists are
written with greedy optional letters expanded, longest first (so
`instructions?` becomes `["instructions", "instruction"]`). -/
def tryAltsCI {α : Type} (alts : List Str) (tail : Str → Option α) (s : Str) : Option α :=
  match alts with
  | [] => none
  | a :: rest =>
    match dropPrefixCI a s with
    | some r =>
      match tail r with
      | some v => some v
      | none => tryAltsCI rest tail s
    | none => tryAltsCI rest tail s

/-- Variant of `tryAltsCI` whose tail reports a consumed length; the
result is the total number of consumed characters.  Used for the
`split` separators. -/
def tryAltsLen (alts : List Str) (tail : Str → Option Nat) (s : Str) : Option Nat :=
  match alts with
  | [] => none
  | a :: rest =>
    match dropPrefixCI a s with
    | some r =>
      match tail r with
      | some k => some (a.length + k)
      | none => tryAltsLen rest tail s
    | none => tryAltsLen rest tail s

/-- Index of the last `'\n'` in `s`, if any. -/
def lastNlIdx (s : Str) : Option Nat :=
  (List.range s.length).foldl
    (fun acc i => if s.getD i ' ' = '\n' then some i else acc) none

/-- Remove non-overlapping doubled occurrences of `ch`, left to right:
the model of `replace(/\*\*/g, '')` and `replace(/__/g, '')`. -/
def removePairs (ch : Char) : Str → Str
  | [] => []
  | [c] => [c]
  | a :: b :: rest =>
    if a = ch ∧ b = ch then removePairs ch rest
    else a :: removePairs ch (b :: rest)

/-- Collapse every whitespace run to a single space: the model of
`replace(/\s+/g, ' ')`.  The flag tracks whether we are inside a run. -/
def collapseWsGo (inRun : Bool) : Str → Str
  | [] => []
  | c :: cs =>
    if isJsSpace c then
      if inRun then collapseWsGo true cs else ' ' :: collapseWsGo true cs
    else c :: collapseWsGo false cs

/-- `replace(/\s+/g, ' ')`. -/
def collapseWs (s : Str) : Str := collapseWsGo false s

/-! ## Data model

`TAG_CATEGORIES` (recipe-app.jsx lines 7–28) and the `Recipe` record
shape produced by the parsers. -/

/-- One tag category of `TAG_CATEGORIES`: display label, icon, and the
closed list of valid option strings. -/
structure TagCategory where
  label : String
  icon : String
  options : List String
deriving DecidableEq, Repr

/-- `TAG_CATEGORIES.type`. -/
def tagCatType : TagCategory :=
  ⟨"Type", "", ["spicy", "comfort", "quick", "few ingredients", "overnight", "salad",
    "slow-cooking", "oven", "barbecue", "big crowd"]⟩

/-- `TAG_CATEGORIES.region`. -/
def tagCatRegion : TagCategory :=
  ⟨"Region", "", ["Asia", "France", "Latin America", "North America", "Italy",
    "Middle East", "Other"]⟩

/-- `TAG_CATEGORIES.meal`. -/
def tagCatMeal : TagCategory :=
  ⟨"Meal", "", ["brekkie", "lunch/dinner", "snack", "dessert"]⟩

/-- `TAG_CATEGORIES.source`. -/
def tagCatSource : TagCategory :=
  ⟨"Source", "", ["Ottolenghi", "Jamie Oliver", "family", "Other"]⟩

/-- A recipe's tag assignment: one list of values per fixed category,
in the key order of `TAG_CATEGORIES` (type, region, meal, source). -/
structure Tags where
  type : List String
  region : List String
  meal : List String
  source : List String
deriving DecidableEq, Repr

/-- The empty tag assignment `{ type: [], region: [], meal: [], source: [] }`. -/
def emptyTags : Tags := ⟨[], [], [], []⟩

/-- The persisted recipe record. -/
structure Recipe where
  id : Nat
  title : String
  category : String
  servings : String
  ingredients : List String
  instructions : String
  notes : String
  tags : Tags
deriving DecidableEq, Repr

/-! ## Similarity engine

`findSimilarRecipes` (recipe-app.jsx lines 52–72). -/

/-- One entry of the similarity result: the candidate recipe, its
Jaccard-style score, the shared-ingredient count and the list of
shared (lowercased) ingredient strings. -/
structure SimilarItem where
  recipe : Recipe
  similarity : ℚ
  sharedCount : Nat
  sharedIngredients : List String
deriving DecidableEq, Repr

/-- JavaScript `new Set(list)` as an insertion-ordered duplicate-free
list. -/
def jsSetOf (l : List String) : List String :=
  l.foldl (fun acc s => if s ∈ acc then acc else acc ++ [s]) []

/-- The body of the `.map` in `findSimilarRecipes`: score one
candidate `r` against the reference's lowercased ingredient set.
Similarity is `sharedCount / totalUnique` (exact rational in the
model, IEEE double in JavaScript; all claim-relevant comparisons are
exact). -/
def scoreAgainst (recipeIngredients : List String) (r : Recipe) : SimilarItem :=
  let otherIngredients := r.ingredients.map jsToLowerS
  let sharedCount := (otherIngredients.filter (fun i => i ∈ recipeIngredients)).length
  let totalUnique := (jsSetOf (recipeIngredients ++ otherIngredients)).length
  let similarity : ℚ := if 0 < totalUnique then (sharedCount : ℚ) / (totalUnique : ℚ) else 0
  ⟨r, similarity, sharedCount, otherIngredients.filter (fun i => i ∈ recipeIngredients)⟩

/-- Insert into a descending-sorted list, after all entries with a
key at least as large: together with `sortDescBy` this is the stable
descending sort performed by `.sort((a, b) => b.similarity - a.similarity)`. -/
def insertDescBy {α : Type} (key : α → ℚ) (x : α) : List α → List α
  | [] => [x]
  | y :: ys => if key x ≤ key y then y :: insertDescBy key x ys else x :: y :: ys

/-- Stable descending insertion sort by a rational key. -/
def sortDescBy {α : Type} (key : α → ℚ) (l : List α) : List α :=
  l.foldl (fun acc x => insertDescBy key x acc) []

/-- The eligible scored candidates in original corpus order: the
reference removed by id equality, each survivor scored, candidates
with fewer than 2 shared ingredients dropped. -/
def eligibleScored (recipe : Recipe) (allRecipes : List Recipe) : List SimilarItem :=
  ((allRecipes.filter (fun r => r.id ≠ recipe.id)).map
      (scoreAgainst (jsSetOf (recipe.ingredients.map jsToLowerS)))).filter
    (fun item => 2 ≤ item.sharedCount)

/-- `findSimilarRecipes(recipe, allRecipes, maxResults)`.  The
JavaScript guard `!recipe || !allRecipes.length` degenerates to the
empty-corpus test here (`recipe` cannot be null in the model). -/
def findSimilarRecipes (recipe : Recipe) (allRecipes : List Recipe)
    (maxResults : Nat) : List SimilarItem :=
  if allRecipes.isEmpty then []
  else (sortDescBy (fun it => it.similarity) (eligibleScored recipe allRecipes)).take maxResults

/-- `findSimilarRecipes` with the JavaScript default `maxResults = 4`. -/
def findSimilarRecipesDefault (recipe : Recipe) (allRecipes : List Recipe) : List SimilarItem :=
  findSimilarRecipes recipe allRecipes 4

/-! ## Block splitter

The splitting stage of `parseText` (recipe-app.jsx lines 168–199):
line-ending normalization, blank-line collapsing, three layered
split rules, trimming and the minimum-length filter. -/

/-- `replace(/\r\n/g, '\n').replace(/\r/g, '\n')`. -/
def normNewlines : Str → Str
  | [] => []
  | '\r' :: '\n' :: rest => '\n' :: normNewlines rest
  | '\r' :: rest => '\n' :: normNewlines rest
  | c :: rest => c :: normNewlines rest

/-- `replace(/\n{4,}/g, '\n\n\n')`, fuel-driven over newline runs. -/
def collapseNlFuel : Nat → Str → Str
  | 0, s => s
  | fuel + 1, s =>
    match s with
    | [] => []
    | '\n' :: rest =>
      let n := 1 + (rest.takeWhile (fun c => c = '\n')).length
      List.replicate (if 4 ≤ n then 3 else n) '\n' ++
        collapseNlFuel fuel (rest.dropWhile (fun c => c = '\n'))
    | c :: rest => c :: collapseNlFuel fuel rest

/-- The normalized text handed to the split rules. -/
def normText (text : String) : Str :=
  collapseNlFuel (text.data.length + 1) (normNewlines text.data)

/-- A separator matcher: given whether the position is the start of
the whole string, and the remaining text, return the number of
characters the separator consumes (none when it does not match
here). -/
abbrev SepMatcher := Bool → Str → Option Nat

/-- `String.prototype.split` driven by a separator matcher: scan left
to right, cut a piece at every leftmost non-overlapping match.  The
fuel is the remaining length; matchers always consume at least one
character (a zero-length answer is conservatively treated as no
match). -/
def splitByMAux (m : SepMatcher) : Nat → Bool → Str → Str → List Str
  | 0, _, acc, s => [acc.reverse ++ s]
  | _ + 1, _, acc, [] => [acc.reverse]
  | fuel + 1, atStart, acc, c :: cs =>
    match m atStart (c :: cs) with
    | some k =>
      if k = 0 then splitByMAux m fuel false (c :: acc) cs
      else acc.reverse :: splitByMAux m fuel false [] ((c :: cs).drop k)
    | none => splitByMAux m fuel false (c :: acc) cs

/-- `text.split(separatorMatcher)`. -/
def splitByM (m : SepMatcher) (s : Str) : List Str :=
  splitByMAux m (s.length + 1) true [] s

/-- Rule 1 separator, `/\n\s*[=\-*]{5,}\s*\n/`: a newline, optional
whitespace, five or more characters drawn from `=`, `-`, `*`, then
whitespace whose consumed part must end with a newline (greedy `\s*`
backtracking to the last newline of the run). -/
def sepRuleM : SepMatcher := fun _ s =>
  match s with
  | '\n' :: r =>
    let w1 := r.takeWhile isJsSpace
    let r1 := r.drop w1.length
    let run := r1.takeWhile (fun c => c == '=' || c == '-' || c == '*')
    if run.length < 5 then none
    else
      let r2 := r1.drop run.length
      let w2 := r2.takeWhile isJsSpace
      match lastNlIdx w2 with
      | some j => some (1 + w1.length + run.length + j + 1)
      | none => none
  | _ => none

/-- The lookahead `(?=[A-Z][A-Za-z\s]{3,50}(?:\n|$))` of rule 2: an
uppercase ASCII letter followed by 3 to 50 letters/whitespace and then
a newline or the end of input. -/
def titleLookahead (s : Str) : Bool :=
  match s with
  | [] => false
  | c :: rest =>
    ('A' ≤ c ∧ c ≤ 'Z') ∧
      (List.range 48).any (fun d =>
        let k := d + 3
        let pre := rest.take k
        pre.length = k && pre.all (fun c2 => c2.isAlpha || isJsSpace c2) &&
          (match rest.drop k with
           | [] => true
           | c2 :: _ => c2 = '\n'))

/-- Rule 2 separator, `/\n\n+(?=[A-Z][A-Za-z\s]{3,50}(?:\n|$))/`: a
run of two or more newlines whose end satisfies the title
lookahead. -/
def blankTitleRuleM : SepMatcher := fun _ s =>
  let run := s.takeWhile (fun c => c = '\n')
  if run.length < 2 then none
  else if titleLookahead (s.drop run.length) then some run.length
  else none

/-- The `#{1,3}\s+` part of rule 3 at the current position. -/
def hashesPart (t : Str) : Option Nat :=
  let run := t.takeWhile (fun c => c = '#')
  if run.length = 0 ∨ 3 < run.length then none
  else
    let w := (t.drop run.length).takeWhile isJsSpace
    if w.length = 0 then none else some (run.length + w.length)

/-- Rule 3 separator, `/(?:^|\n)#{1,3}\s+/`: one to three `#` marks
after a newline (or at the very start of the text) followed by
whitespace. -/
def headingRuleM : SepMatcher := fun atStart s =>
  match s with
  | '\n' :: r =>
    match hashesPart r with
    | some k => some (1 + k)
    | none => none
  | _ =>
    if atStart then hashesPart s else none

/-- The layered split of `parseText`: rule 1, then — only when a rule
left everything in one block — rule 2, then rule 3. -/
def blocksStage (t : Str) : List Str :=
  let b1 := splitByM sepRuleM t
  if b1.length = 1 then
    let b2 := splitByM blankTitleRuleM t
    if b2.length = 1 then splitByM headingRuleM t else b2
  else b1

/-- `blocks.map(b => b.trim()).filter(b => b.length > 30)`: the block
list `parseText` feeds to `parseRecipeBlock`. -/
def blocksOf (text : String) : List Str :=
  ((blocksStage (normText text)).map jsTrim).filter (fun b => 30 < b.length)

/-! ## Recipe block parser

`parseRecipeBlock` (recipe-app.jsx lines 222–423), one extraction
function per field. -/

/-- A `[:\s]` character. -/
def isColonSpace (c : Char) : Bool := c == ':' || isJsSpace c

/-- Tail matcher for `sep*([^\n]+)`-shaped regex parts (`sep` a
character class, e.g. `[:\s]`): greedily consume a run of separator
characters, backtracking so that at least one capturable (non-newline)
character follows; the capture is the rest of that line.  `minOne`
distinguishes `sep+` from `sep*`. -/
def capAfterRun (sep : Char → Bool) (minOne : Bool) (r : Str) : Option Str :=
  let n := (r.takeWhile sep).length
  let lo := if minOne then 1 else 0
  if minOne ∧ n = 0 then none
  else
    match ((List.range (n + 1)).reverse.filter (fun k => lo ≤ k)).find? (fun k =>
        match r.drop k with
        | [] => false
        | c :: _ => c != '\n') with
    | some k => some ((r.drop k).takeWhile (fun c => c ≠ '\n'))
    | none => none

/-- Tail matcher for `[:\s]+([a-zA-Z\s]+)` (the direct `category:`
pattern): like `capAfterRun` but the capture class is ASCII letters
and whitespace. -/
def capAlphaTail (r : Str) : Option Str :=
  let n := (r.takeWhile isColonSpace).length
  if n = 0 then none
  else
    match ((List.range (n + 1)).reverse.filter (fun k => 1 ≤ k)).find? (fun k =>
        match r.drop k with
        | [] => false
        | c :: _ => c.isAlpha || isJsSpace c) with
    | some k => some ((r.drop k).takeWhile (fun c => c.isAlpha || isJsSpace c))
    | none => none

/-- The lookahead `(?=\n\s*(?:hdr|…)\s*[:|\n])` ending an
ingredients/instructions capture: a newline, optional whitespace, one
of the header words, then optional whitespace that reaches a `:`,
`|`, or a newline. -/
def lookaheadEndHeader (alts : List Str) (s : Str) : Bool :=
  match s with
  | '\n' :: rest =>
    let r1 := rest.dropWhile isJsSpace
    alts.any (fun a =>
      match dropPrefixCI a r1 with
      | none => false
      | some r2 =>
        let w2 := r2.takeWhile isJsSpace
        (match r2.drop w2.length with
         | c :: _ => c == ':' || c == '|'
         | [] => false) || w2.contains '\n')
  | _ => false

/-- The lazy capture `([\s\S]*?)` bounded by a lookahead or the end
of input: take characters until the first position where the
lookahead holds. -/
def scanUntilLA (la : Str → Bool) : Str → Str
  | [] => []
  | c :: cs => if la (c :: cs) then [] else c :: scanUntilLA la cs

/-- Tail matcher for `[:\s]*\n+(…)` section headers: the separator
run must contain a newline (greedy `[:\s]*` backtracks to the last
one, `\n+` consumes from there), then the capture runs to the first
end-header lookahead or the end of the block. -/
def ingTail (endHdrs : List Str) (r : Str) : Option Str :=
  let R := r.takeWhile isColonSpace
  match lastNlIdx R with
  | none => none
  | some j =>
    let nlRun := (r.drop j).takeWhile (fun c => c = '\n')
    some (scanUntilLA (lookaheadEndHeader endHdrs) (r.drop (j + nlRun.length)))

/-- `instructions?|directions?|steps?|method|preparation|notes?|tips?|serves?|makes?`,
greedy optionals expanded. -/
def hdrsIngEnd1 : List Str :=
  ["instructions", "instruction", "directions", "direction", "steps", "step",
   "method", "preparation", "notes", "note", "tips", "tip",
   "serves", "serve", "makes", "make"].map String.data

/-- Same list without `serves?|makes?` (the ingredient patterns 2 and
3 use this shorter lookahead). -/
def hdrsIngEnd2 : List Str :=
  ["instructions", "instruction", "directions", "direction", "steps", "step",
   "method", "preparation", "notes", "note", "tips", "tip"].map String.data

/-- `instructions?|directions?|steps?|method|preparation`. -/
def hdrsInstrOnly : List Str :=
  ["instructions", "instruction", "directions", "direction", "steps", "step",
   "method", "preparation"].map String.data

/-- `notes?|tips?|chef'?s? notes?|serves?|makes?`. -/
def hdrsInstrEnd1 : List Str :=
  ["notes", "note", "tips", "tip",
   "chef\x27s notes", "chef\x27s note", "chef\x27 notes", "chef\x27 note",
   "chefs notes", "chefs note", "chef notes", "chef note",
   "serves", "serve", "makes", "make"].map String.data

/-- `notes?|tips?|serves?|makes?`. -/
def hdrsInstrEnd2 : List Str :=
  ["notes", "note", "tips", "tip", "serves", "serve", "makes", "make"].map String.data

/-- Position matcher for `/ingredients?[:\s]*\n+(…)/i`. -/
def ingM1 : Str → Option Str :=
  tryAltsCI (["ingredients", "ingredient"].map String.data) (ingTail hdrsIngEnd1)

/-- Position matcher for `/you(?:'ll| will) need[:\s]*\n+(…)/i`. -/
def ingM2 : Str → Option Str :=
  tryAltsCI (["you\x27ll need", "you will need"].map String.data) (ingTail hdrsIngEnd2)

/-- Position matcher for `/what you need[:\s]*\n+(…)/i`. -/
def ingM3 : Str → Option Str :=
  tryAltsCI (["what you need".data]) (ingTail hdrsIngEnd2)

/-- The bullet class `[\s\-•*◦○▪▫●➤➢▸►▹]` of the ingredient list
fallback. -/
def bulletChar (c : Char) : Bool :=
  isJsSpace c || ['-', '•', '*', '◦', '○', '▪', '▫', '●', '➤', '➢', '▸', '►', '▹'].contains c

/-- Greedy `[\s]*[^\n]+` after the bullet character of a fallback
unit, in continuation-passing style: `[\s]*` consumes `j` characters
of the maximal whitespace run, tried from longest to shortest (regex
backtracking order; the run may cross newlines, since `\s` matches
them), and `[^\n]+` then takes the maximal non-newline run.  A
shorter `[^\n]+` take is never explored: it would leave the position
on a non-newline character preceded by a non-newline character,
where neither a further `(?:^|\n)`-led unit nor the `(?=\n…)`
lookahead can ever match. -/
def buTail {α : Type} (s : Str) (k : Str → Option α) : Option α :=
  let n := (s.takeWhile isJsSpace).length
  (List.range (n + 1)).findSome? (fun d =>
    let j := n - d
    match s.drop j with
    | [] => none
    | c :: _ =>
      if c = '\n' then none
      else k ((s.drop j).dropWhile (fun c2 => c2 ≠ '\n')))

/-- One repetition unit `(?:^|\n)[\s\-•*◦○▪▫●➤➢▸►▹][\s]*[^\n]+` of
the list fallback, in continuation-passing style.  `afterNl` says
whether the position is the start of the string or just after a
newline, where the multiline `^` matches; the zero-width `^`
alternative is tried before the literal `\n` one, falling through on
total failure of its continuation.  Because the bullet class
contains `\s`, a blank line's newline can itself serve as the bullet
character, so a plain line after a blank line forms a unit. -/
def buUnit {α : Type} (afterNl : Bool) (s : Str) (k : Str → Option α) : Option α :=
  let viaAnchor : Option α :=
    if afterNl then
      match s with
      | c :: rest => if bulletChar c then buTail rest k else none
      | [] => none
    else none
  match viaAnchor with
  | some r => some r
  | none =>
    match s with
    | '\n' :: c :: rest => if bulletChar c then buTail rest k else none
    | _ => none

/-- The greedy `(unit)+` repetition followed by the end-of-units
lookahead: after each unit the engine first tries to extend with a
further unit and only then stops the loop and tests the lookahead
(standard backtracking order, explored through the continuations).
On success the suffix after the last consumed unit is returned.  The
position after a unit always follows a non-newline character, so
later units never match through `^`.  The fuel is the remaining
length; every unit consumes at least two characters. -/
def buLoop (hdrs : List Str) : Nat → Bool → Str → Option Str
  | 0, _, _ => none
  | fuel + 1, afterNl, s =>
    buUnit afterNl s (fun rest =>
      match buLoop hdrs fuel false rest with
      | some r => some r
      | none => if lookaheadEndHeader hdrs rest then some rest else none)

/-- Leftmost scan of the list-fallback pattern
`/((?:^|\n)[\s\-•*◦○▪▫●➤➢▸►▹][\s]*[^\n]+)+(?=\n\s*(?:hdrs)\s*[:|\n])/im`:
try the unit loop at every position, tracking where the multiline
`^` matches; on success the match is the consumed span (including a
leading newline when the match entered through the `\n`
alternative), exactly the `listMatch[0]` the source feeds to the
ingredient-line processing. -/
def buScan (hdrs : List Str) : Nat → Bool → Str → Option Str
  | 0, _, _ => none
  | fuel + 1, afterNl, s =>
    match buLoop hdrs (s.length + 1) afterNl s with
    | some rest => some (s.take (s.length - rest.length))
    | none =>
      match s with
      | [] => none
      | c :: cs => buScan hdrs fuel (c = '\n') cs

/-- The captured text of the list fallback. -/
def bulletFallback (block : Str) : Option Str :=
  buScan hdrsInstrOnly (block.length + 1) true block

/-- Leading characters stripped from each ingredient line:
`/^[\s\-•*◦○▪▫●➤➢▸►▹\d.)\]]+/`. -/
def ingLeadChar (c : Char) : Bool :=
  bulletChar c || c.isDigit || c == '.' || c == ')' || c == ']'

/-- `replace(/^[\d]+\s*[\/.\s]*[\d]*/, '')` on an ingredient line.
(After the first strip the line never starts with a digit, so in the
composed cleaner this is the identity; it is kept for fidelity.) -/
def stripNumPre (l : Str) : Str :=
  match l with
  | c :: _ =>
    if c.isDigit then
      (((l.dropWhile Char.isDigit).dropWhile isJsSpace).dropWhile
          (fun c2 => c2 == '/' || c2 == '.' || isJsSpace c2)).dropWhile Char.isDigit
    else l
  | [] => []

/-- Per-line ingredient cleanup: strip markers, strip a leading
number pattern, trim. -/
def cleanIngLine (l : Str) : Str := jsTrim (stripNumPre (l.dropWhile ingLeadChar))

/-- `(ingredients?|you('ll| will) need|for the|topping|what you need)` —
the section-header restatements excluded from ingredient lines. -/
def ingHeaderEchoAlts : List Str :=
  ["ingredients", "ingredient", "you\x27ll need", "you will need", "for the",
   "topping", "what you need"].map String.data

/-- `lower.match(/^(…)[:]*$/)`: the lowercased line is one of the
header restatements followed only by colons. -/
def isHeaderEcho (low : Str) : Bool :=
  ingHeaderEchoAlts.any (fun h =>
    match dropPrefixEq h low with
    | some rest => rest.all (fun c => c = ':')
    | none => false)

/-- The keep-filter on cleaned ingredient lines: length above 1 and
below 200, not a header restatement. -/
def ingLineOk (l : Str) : Bool :=
  1 < l.length && l.length < 200 && !(isHeaderEcho (lowerStr l))

/-- Ingredient extraction: the three header patterns in order, then
the bullet-list fallback; the raw span is split into lines, cleaned
and filtered. -/
def ingredientsOf (block : Str) : List Str :=
  let cap :=
    match searchFrom ingM1 block with
    | some c => some c
    | none =>
      match searchFrom ingM2 block with
      | some c => some c
      | none =>
        match searchFrom ingM3 block with
        | some c => some c
        | none => bulletFallback block
  match cap with
  | none => []
  | some c => ((splitOnChar '\n' c).map cleanIngLine).filter ingLineOk

/-- `instructions?|directions?|steps?|method|preparation` as a match
alternation (same list as the lookahead, kept separately because here
the order decides the leftmost capture). -/
def instrAlts1 : List Str := hdrsInstrOnly

/-- Position matcher for the first instructions pattern. -/
def instrM1 : Str → Option Str := tryAltsCI instrAlts1 (ingTail hdrsInstrEnd1)

/-- Position matcher for `/(?:how to make|to prepare|what to do)[:\s]*\n+(…)/i`. -/
def instrM2 : Str → Option Str :=
  tryAltsCI (["how to make", "to prepare", "what to do"].map String.data) (ingTail hdrsInstrEnd2)

/-- `replace(/^\d+[\.\)]\s*/g, '')`: strip one leading
step number (the anchor `^` admits at most one match). -/
def stripLeadNum (s : Str) : Str :=
  let d := s.takeWhile Char.isDigit
  if d.length = 0 then s
  else
    match s.drop d.length with
    | c :: rest => if c = '.' ∨ c = ')' then rest.dropWhile isJsSpace else s
    | [] => s

/-- Post-processing of a captured instructions span:
`split(/\n+/).map(trim).filter(nonempty).join(' ')`, collapse
whitespace, strip a leading step number, trim.  (Splitting on single
newlines instead of newline runs only changes empty pieces, which the
filter removes.) -/
def processInstr (cap : Str) : Str :=
  let pieces := ((splitOnChar '\n' cap).map jsTrim).filter (fun p => !p.isEmpty)
  jsTrim (stripLeadNum (collapseWs (List.intercalate [' '] pieces)))

/-- Consumed length of the split separator `/ingredients?[:\s]*\n/i`
after the header word: the separator run up to and including its last
newline. -/
def ingHdrSplitLen (r : Str) : Option Nat :=
  match lastNlIdx (r.takeWhile isColonSpace) with
  | some j => some (j + 1)
  | none => none

/-- Separator matcher for `block.split(/ingredients?[:\s]*\n/i)`. -/
def ingHdrSplitM : SepMatcher := fun _ s =>
  tryAltsLen (["ingredients", "ingredient"].map String.data) ingHdrSplitLen s

/-- The bullet class `[\s\-•*◦○▪▫●]` used by the instructions
fallback to skip lines that still belong to the ingredient list. -/
def smallBullet (c : Char) : Bool :=
  isJsSpace c || ['-', '•', '*', '◦', '○', '▪', '▫', '●'].contains c

/-- The "grab remaining text after the ingredients header" fallback:
take the piece of the block after the first `ingredients…` header,
drop bullet lines and blank lines, join what is left. -/
def fallbackInstr (block : Str) : Option Str :=
  match splitByM ingHdrSplitM block with
  | _ :: after :: _ =>
    let collected := ((splitOnChar '\n' after).map jsTrim).filter (fun t =>
      !t.isEmpty &&
        !(match t with
          | c :: _ => smallBullet c
          | [] => false))
    if collected.isEmpty then none
    else some (jsTrim (collapseWs (List.intercalate [' '] collected)))
  | _ => none

/-- Instructions extraction: the two header patterns in order (a
matching pattern wins even when its processed text is empty), then —
when the result is empty and ingredients were found — the
remaining-text fallback. -/
def instructionsOf (block : Str) (ings : List Str) : Str :=
  let fromPats :=
    match searchFrom instrM1 block with
    | some cap => processInstr cap
    | none =>
      match searchFrom instrM2 block with
      | some cap => processInstr cap
      | none => []
  if fromPats = [] ∧ ings ≠ [] then
    match fallbackInstr block with
    | some s => s
    | none => []
  else fromPats

/-- `notes?|tips?|chef'?s? notes?` with greedy optionals expanded in
backtracking order. -/
def notesAlts : List Str :=
  ["notes", "note", "tips", "tip",
   "chef\x27s notes", "chef\x27s note", "chef\x27 notes", "chef\x27 note",
   "chefs notes", "chefs note", "chef notes", "chef note"].map String.data

/-- Position matcher for `/(?:notes?|tips?|chef'?s? notes?)[:\s]*(.+)/i`. -/
def notesM1 : Str → Option Str := tryAltsCI notesAlts (capAfterRun isColonSpace false)

/-- Position matcher for `/💡\s*(.+)/` (case-sensitive, whitespace
separator without the colon). -/
def lightbulbM : Str → Option Str := fun s =>
  match s with
  | '💡' :: r => capAfterRun isJsSpace false r
  | _ => none

/-- Notes extraction: header pattern, then the emoji pattern. -/
def notesOf (block : Str) : Str :=
  match searchFrom notesM1 block with
  | some cap => jsTrim cap
  | none =>
    match searchFrom lightbulbM block with
    | some cap => jsTrim cap
    | none => []

/-- Position matcher for the direct `/category[:\s]+([a-zA-Z\s]+)/i`
pattern. -/
def catDirectM : Str → Option Str := tryAltsCI ["category".data] capAlphaTail

/-- Category detection: the direct pattern, then the keyword
patterns in source order, defaulting to `"Main"`. -/
def categoryOf (block : Str) : Str :=
  match searchFrom catDirectM block with
  | some cap => jsTrim cap
  | none =>
    if containsAnyCI (["breakfast", "brekkie"].map String.data) block then "Breakfast".data
    else if containsAnyCI (["dessert", "sweet", "cake", "cookie"].map String.data) block then
      "Dessert".data
    else if containsAnyCI (["soup", "stew", "broth"].map String.data) block then "Soup".data
    else if containsAnyCI (["salad"].map String.data) block then "Salad".data
    else if containsAnyCI (["snack", "appetizer", "starter"].map String.data) block then
      "Snack".data
    else if containsAnyCI (["drink", "beverage", "smoothie"].map String.data) block then
      "Drink".data
    else "Main".data

/-- Position matcher for
`/(?:serves?|servings?|makes?|yields?)[:\s]+([^\n]+)/i`. -/
def servM1 : Str → Option Str :=
  tryAltsCI (["serves", "serve", "servings", "serving", "makes", "make",
    "yields", "yield"].map String.data) (capAfterRun isColonSpace true)

/-- Tail matcher for `[:\s]+(\d+\s*(?:people|persons?|servings?))`. -/
def servTail2 (r : Str) : Option Str :=
  let n := (r.takeWhile isColonSpace).length
  if n = 0 then none
  else
    let rest := r.drop n
    let d := rest.takeWhile Char.isDigit
    if d.isEmpty then none
    else
      let rest2 := rest.drop d.length
      let w := rest2.takeWhile isJsSpace
      let rest3 := rest2.drop w.length
      match (["people", "persons", "person", "servings", "serving"].map String.data).findSome?
          (fun a => if (dropPrefixCI a rest3).isSome then some a.length else none) with
      | some wordLen => some (d ++ w ++ rest3.take wordLen)
      | none => none

/-- Position matcher for `/(?:for|feeds?)[:\s]+(\d+\s*(?:people|persons?|servings?))/i`. -/
def servM2 : Str → Option Str :=
  tryAltsCI (["for", "feeds", "feed"].map String.data) servTail2

/-- Servings extraction: the two patterns in order. -/
def servingsOf (block : Str) : Str :=
  match searchFrom servM1 block with
  | some cap => jsTrim cap
  | none =>
    match searchFrom servM2 block with
    | some cap => jsTrim cap
    | none => []

/-- The explicit tag line capture `new RegExp(tagCat + "[:\\s]+([^\n]+)", "i")`. -/
def tagExplicitCapture (block : Str) (key : Str) : Option Str :=
  searchFrom (tryAltsCI [key] (capAfterRun isColonSpace true)) block

/-- Tag extraction for one category: values of an explicit tag line,
trimmed and lowercased, kept only when some option matches them
case-insensitively; when that yields nothing, every option whose
lowercase form occurs in the lowercased block. -/
def tagsForOptions (block : Str) (key : Str) (opts : List String) : List String :=
  let explicit :=
    match tagExplicitCapture block key with
    | some capt =>
      (((splitOnAnyChar [',', '|'] capt).map (fun t => lowerStr (jsTrim t))).filter
        (fun t => opts.any (fun o => lowerStr o.data == t))).map String.mk
    | none => []
  if explicit.length = 0 then
    opts.filter (fun o => includesStr (lowerStr o.data) (lowerStr block))
  else explicit

/-- Tag extraction over the four fixed categories. -/
def tagsOf (block : Str) : Tags :=
  ⟨tagsForOptions block "type".data tagCatType.options,
   tagsForOptions block "region".data tagCatRegion.options,
   tagsForOptions block "meal".data tagCatMeal.options,
   tagsForOptions block "source".data tagCatSource.options⟩

/-- The decoration class `[=#*\-\s═]` stripped from the front of a
title candidate. -/
def titleDecor (c : Char) : Bool :=
  c == '=' || c == '#' || c == '*' || c == '-' || c == '═' || isJsSpace c

/-- The decoration class `[=#*\-═]` stripped from the end (no
whitespace; the subsequent trim removes it). -/
def titleDecorEnd (c : Char) : Bool :=
  c == '=' || c == '#' || c == '*' || c == '-' || c == '═'

/-- Title cleanup: strip decorations and bold/underline markers, trim,
uppercase, then title-case each space-separated word (first character
kept, remainder lowercased). -/
def cleanTitleLine (line : Str) : Str :=
  let s1 := line.dropWhile titleDecor
  let s2 := (s1.reverse.dropWhile titleDecorEnd).reverse
  let s3 := removePairs '*' s2
  let s4 := removePairs '_' s3
  let s5 := jsTrim s4
  let s6 := s5.map Char.toUpper
  List.intercalate [' '] ((splitOnChar ' ' s6).map (fun w =>
    match w with
    | [] => []
    | c :: rest => c :: rest.map Char.toLower))

/-- Acceptance test on a cleaned title candidate: length 3–100 and no
section-header substrings. -/
def titleOk (c : Str) : Bool :=
  3 ≤ c.length && c.length ≤ 100 &&
    !(includesStr "ingredient".data (lowerStr c)) &&
    !(includesStr "instructions".data (lowerStr c)) &&
    !(includesStr "serves".data (lowerStr c))

/-- `block.split('\n').map(l => l.trim()).filter(l => l)`. -/
def linesOf (block : Str) : List Str :=
  ((splitOnChar '\n' block).map jsTrim).filter (fun l => !l.isEmpty)

/-- Title extraction: the first of the first five non-empty lines
whose cleaned form passes `titleOk` (empty when none does). -/
def titleOf (ls : List Str) : Str :=
  match (ls.take 5).findSome? (fun line =>
      let c := cleanTitleLine line
      if titleOk c then some c else none) with
  | some t => t
  | none => []

/-- The sentinel default of the instructions field. -/
def sentinelInstructions : Str := "No instructions provided".data

/-- `instructions || 'No instructions provided'` at record
construction. -/
def finalInstructions (block : Str) : Str :=
  if instructionsOf block (ingredientsOf block) = [] then sentinelInstructions
  else instructionsOf block (ingredientsOf block)

/-- The record built by `parseRecipeBlock` once validation passes.
The source computes each field once into a local variable; the pure
extraction functions are referenced directly here.  The id stands in
for `Date.now() + Math.random()`. -/
def mkParsedRecipe (block : Str) : Recipe :=
  ⟨0, String.mk (titleOf (linesOf block)), String.mk (categoryOf block),
   String.mk (servingsOf block), (ingredientsOf block).map String.mk,
   String.mk (finalInstructions block), String.mk (notesOf block), tagsOf block⟩

/-- `parseRecipeBlock(block)`: reject blocks with fewer than three
non-empty lines, reject when no title is found, and emit a record
only when both title and ingredient list are non-empty. -/
def parseRecipeBlock (block : Str) : Option Recipe :=
  if (linesOf block).length < 3 then none
  else if titleOf (linesOf block) = [] then none
  else if titleOf (linesOf block) ≠ [] ∧ ingredientsOf block ≠ [] then
    some (mkParsedRecipe block)
  else none

/-- `parseText(text)`: split into blocks, parse each block, keep the
successes in order. -/
def parseText (text : String) : List Recipe :=
  (blocksOf text).filterMap parseRecipeBlock

/-! ## JSON import path and import entry point

`parseJSON` (recipe-app.jsx lines 205–218) and `handleImport`
(lines 607–643 of the second implementation, which contains the
format sniffing and the error handling around both parsers).
`JSON.parse` / `JSON.stringify` are JavaScript builtins, not
repository code: `parseJSON` is embedded over already-parsed JSON
recipe objects, and the parse step itself is a parameter of
`handleImport` (a failing `JSON.parse` is `none`). -/

/-- The `ingredients` field of a JSON recipe object: an array, a
string, or absent/null (JavaScript falsy values other than a string
are folded into `missing`). -/
inductive JsonIngredients where
  | arr (l : List String)
  | str (s : String)
  | missing
deriving DecidableEq, Repr

/-- A parsed JSON recipe object with the fields `parseJSON` reads;
optional string fields model both absent keys and empty strings. -/
structure JsonRecipe where
  title : Option String
  category : Option String
  servings : Option String
  ingredients : JsonIngredients
  instructions : Option String
  notes : Option String
  tags : Option Tags
deriving DecidableEq, Repr

/-- JavaScript `v || d` for an optional string field (both `undefined`
and `""` are falsy). -/
def jsOr (v : Option String) (d : String) : String :=
  match v with
  | some s => if s = "" then d else s
  | none => d

/-- `s.split(',').map(i => i.trim())`. -/
def splitCommaTrim (s : String) : List String :=
  (splitOnChar ',' s.data).map (fun p => String.mk (jsTrim p))

/-- `Array.isArray(r.ingredients) ? r.ingredients :
(r.ingredients || '').split(',').map(i => i.trim())`. -/
def jsonIngredientsOf : JsonIngredients → List String
  | .arr l => l
  | .str s => splitCommaTrim s
  | .missing => splitCommaTrim ""

/-- `parseJSON` on the parsed payload (`Array.isArray(data) ? data :
[data]` is modelled by the caller already supplying a list; a single
object is the one-element list). -/
def parseJSON (data : List JsonRecipe) : List Recipe :=
  data.map (fun r =>
    ⟨0, jsOr r.title "Untitled Recipe", jsOr r.category "Main", jsOr r.servings "",
     jsonIngredientsOf r.ingredients, jsOr r.instructions "", jsOr r.notes "",
     (match r.tags with
      | some t => t
      | none => emptyTags)⟩)

/-- The outcome `handleImport` reports: the caught parse failure
("Could not parse file"), the empty outcome ("No recipes found in
file"), or the imported records. -/
inductive ImportResult where
  | parseFailure
  | noRecipes
  | imported (rs : List Recipe)
deriving DecidableEq, Repr

/-- The format sniff `trimmed.startsWith('[') || trimmed.startsWith('{')`. -/
def startsJSON (content : String) : Bool :=
  match jsTrim content.data with
  | '[' :: _ => true
  | '{' :: _ => true
  | _ => false

/-- `handleImport`: sniff the format; on the JSON path a failing
`JSON.parse` (the `jsonParse` parameter returning `none`) is caught
as the hard failure; otherwise the records of the chosen parser (the
source's `imported` local) are reported, with the empty list reported
as the no-recipes outcome. -/
def handleImport (jsonParse : String → Option (List JsonRecipe))
    (content : String) : ImportResult :=
  if startsJSON content then
    match jsonParse content with
    | none => .parseFailure
    | some d =>
      if 0 < (parseJSON d).length then .imported (parseJSON d) else .noRecipes
  else if 0 < (parseText content).length then .imported (parseText content)
  else .noRecipes

/-! ## Spec-side definitions

Definitions following the wording of the specification and of the
claims, used to compare the source behaviour against the claimed
behaviour. -/

/-- Modelled from the claim's wording: the size of the
case-insensitive intersection of the two ingredient *sets* (both
sides deduplicated). -/
def setIntersectionSizeCI (a b : List String) : Nat :=
  ((jsSetOf (a.map jsToLowerS)).filter (fun i => i ∈ b.map jsToLowerS)).length

/-- Spec-side shared-ingredient count of the amended claim: the
number of candidate ingredient entries (lowercased, counted with
multiplicity) that occur among the reference's lowercased
ingredients. -/
def multisharedCount (a b : Recipe) : Nat :=
  ((b.ingredients.map jsToLowerS).filter
    (fun i => i ∈ a.ingredients.map jsToLowerS)).length

/-- Spec-side union size: the number of distinct lowercased
ingredient strings across both recipes. -/
def unionSizeCI (a b : Recipe) : Nat :=
  ((a.ingredients.map jsToLowerS) ++ (b.ingredients.map jsToLowerS)).dedup.length

/-- Spec-side similarity score: shared count over union size, zero
when the union is empty. -/
def similarityScoreSpec (a b : Recipe) : ℚ :=
  if unionSizeCI a b = 0 then 0
  else (multisharedCount a b : ℚ) / (unionSizeCI a b : ℚ)

/-- Spec-side shared-ingredient list: the lowercased candidate
entries found among the reference's lowercased ingredients. -/
def sharedLowerSpec (a b : Recipe) : List String :=
  (b.ingredients.map jsToLowerS).filter (fun i => i ∈ a.ingredients.map jsToLowerS)

/-- The JSON image of an in-memory recipe after
`JSON.parse(JSON.stringify(r))`: the builtin round trip is the
identity on these plain string/list fields, so the composite is the
in-memory record reread as a JSON recipe object. -/
def recipeToJson (r : Recipe) : JsonRecipe :=
  ⟨some r.title, some r.category, some r.servings, .arr r.ingredients,
   some r.instructions, some r.notes, some r.tags⟩

/-! ## Concrete inputs used by the claim theorems -/

/-- The end-to-end scenario input of the specification (§8). -/
def tomatoText : String :=
  "Tomato Soup\n\nIngredients:\n- tomatoes\n- onion\n- garlic\n\nInstructions:\nSauté onion and garlic, add tomatoes, simmer 20 minutes."

/-- The record the importer actually produces for `tomatoText` (the
keyword `soup` in the title drives category detection). -/
def tomatoRecord : Recipe :=
  ⟨0, "Tomato Soup", "Soup", "", ["tomatoes", "onion", "garlic"],
   "Sauté onion and garlic, add tomatoes, simmer 20 minutes.", "", emptyTags⟩

/-- A small well-formed free-text recipe. -/
def c1Text : String :=
  "Bean Dip\nIngredients:\n- beans\n- oil\nInstructions:\nMash beans with oil."

/-- The record produced for `c1Text`. -/
def c1Record : Recipe :=
  ⟨0, "Bean Dip", "Main", "", ["beans", "oil"], "Mash beans with oil.", "", emptyTags⟩

/-- A JSON recipe object whose `ingredients` field is the empty
array (the parsed form of `{"title":"Bean Dip","ingredients":[]}`). -/
def c1Json : JsonRecipe := ⟨some "Bean Dip", none, none, .arr [], none, none, none⟩

/-- The record `parseJSON` produces for `c1Json`: its ingredient list
is empty. -/
def c1JsonRecord : Recipe := ⟨0, "Bean Dip", "Main", "", [], "", "", emptyTags⟩

/-- A block with an explicit tag line whose value matches the option
`"Asia"` only up to case. -/
def c2Block : Str :=
  ("Veggie Noodles\nregion: ASIA\nIngredients:\nnoodles\ncarrots\nInstructions:\nBoil and mix.").data

/-- The record produced for `c2Block`: the region tag is stored as
the lowercased candidate `"asia"`. -/
def c2Record : Recipe :=
  ⟨0, "Veggie Noodles", "Main", "", ["noodles", "carrots"], "Boil and mix.", "",
   ⟨[], ["asia"], [], []⟩⟩

/-- A reference recipe for the similarity counterexample. -/
def c4Ref : Recipe := ⟨1, "Salted A", "Main", "", ["salt", "pepper"], "x", "", emptyTags⟩

/-- A candidate listing `salt` twice: its multiplicity inflates the
shared-ingredient count past the threshold. -/
def c4Cand : Recipe := ⟨2, "Salted B", "Main", "", ["salt", "salt"], "x", "", emptyTags⟩

/-- The similarity item the engine actually returns for `c4Ref`
against `c4Cand`: shared count 2 (the duplicated `salt` counted
twice) and similarity 2/2 = 1. -/
def c4Item : SimilarItem :=
  scoreAgainst (jsSetOf (c4Ref.ingredients.map jsToLowerS)) c4Cand

/-- A block with a title and ingredients but no recoverable
instructions text. -/
def c8Block : Str := ("Simple Mix\nIngredients:\n- lettuce\n- oil").data

/-- The record produced for `c8Block`, carrying the sentinel
instructions. -/
def c8Record : Recipe :=
  ⟨0, "Simple Mix", "Main", "", ["lettuce", "oil"], "No instructions provided", "", emptyTags⟩

/-- A recipe list for the JSON round-trip witness. -/
def c9List : List Recipe :=
  [⟨7, "Pancakes", "Breakfast", "", ["flour", "milk"], "Mix and fry.", "", emptyTags⟩,
   ⟨8, "Salsa", "Snack", "", ["tomato", "lime"], "Chop.", "", emptyTags⟩]

/-- A two-line block with a usable title and an inline ingredient
line. -/
def c10Block : Str := ("Tomato Soup\nIngredients: tomatoes, onion").data

/-! ## Helper lemmas -/

theorem mk_ne_empty_iff (l : Str) : String.mk l ≠ "" ↔ l ≠ [] := by
  constructor
  · intro h hl
    subst hl
    exact h rfl
  · intro h hs
    apply h
    have := congrArg String.data hs
    simpa using this

theorem parseRecipeBlock_eq_some {block : Str} {r : Recipe}
    (h : parseRecipeBlock block = some r) :
    r = mkParsedRecipe block ∧ titleOf (linesOf block) ≠ [] ∧
      ingredientsOf block ≠ [] ∧ 3 ≤ (linesOf block).length := by
  unfold parseRecipeBlock at h
  split at h
  · exact absurd h (by simp)
  · split at h
    · exact absurd h (by simp)
    · split at h
      · rename_i hlen htitle hboth
        refine ⟨by injection h with h2; exact h2.symm, hboth.1, hboth.2, ?_⟩
        omega
      · exact absurd h (by simp)

theorem mem_tagsForOptions {block key : Str} {opts : List String} {v : String}
    (h : v ∈ tagsForOptions block key opts) :
    ∃ o ∈ opts, o = v ∨ jsToLowerS o = v := by
  unfold tagsForOptions at h
  cases hcap : tagExplicitCapture block key with
  | none =>
    rw [hcap] at h
    simp only [List.length_nil, if_pos] at h
    rcases List.mem_filter.mp h with ⟨ho, _⟩
    exact ⟨v, ho, Or.inl rfl⟩
  | some capt =>
    rw [hcap] at h
    dsimp only at h
    split at h
    · rcases List.mem_filter.mp h with ⟨ho, _⟩
      exact ⟨v, ho, Or.inl rfl⟩
    · rcases List.mem_map.mp h with ⟨t, ht, hmk⟩
      rcases List.mem_filter.mp ht with ⟨_, hp⟩
      rcases List.any_eq_true.mp hp with ⟨o, ho, hbeq⟩
      refine ⟨o, ho, Or.inr ?_⟩
      have hlt : lowerStr o.data = t := by exact_mod_cast beq_iff_eq.mp hbeq
      rw [← hmk, ← hlt]
      rfl

theorem length_filterMap_eq_countP {α β : Type} (f : α → Option β) :
    ∀ l : List α, (l.filterMap f).length = l.countP (fun a => (f a).isSome)
  | [] => rfl
  | a :: l => by
    rw [List.filterMap_cons, List.countP_cons]
    cases hfa : f a with
    | none => simp [hfa, length_filterMap_eq_countP f l]
    | some b => simp [hfa, length_filterMap_eq_countP f l]

theorem mem_foldl_jsSetAdd (l : List String) :
    ∀ (acc : List String) (x : String),
      x ∈ l.foldl (fun acc s => if s ∈ acc then acc else acc ++ [s]) acc ↔
        x ∈ acc ∨ x ∈ l := by
  induction l with
  | nil => simp
  | cons s l ih =>
    intro acc x
    simp only [List.foldl_cons]
    rw [ih]
    by_cases hs : s ∈ acc
    · rw [if_pos hs]
      simp only [List.mem_cons]
      constructor
      · rintro (h | h)
        · exact Or.inl h
        · exact Or.inr (Or.inr h)
      · rintro (h | h | h)
        · exact Or.inl h
        · exact Or.inl (h ▸ hs)
        · exact Or.inr h
    · rw [if_neg hs]
      simp only [List.mem_append, List.mem_cons, List.not_mem_nil, or_false]
      tauto

theorem nodup_foldl_jsSetAdd (l : List String) :
    ∀ acc : List String, acc.Nodup →
      (l.foldl (fun acc s => if s ∈ acc then acc else acc ++ [s]) acc).Nodup := by
  induction l with
  | nil => intro acc h; simpa using h
  | cons s l ih =>
    intro acc h
    simp only [List.foldl_cons]
    by_cases hs : s ∈ acc
    · rw [if_pos hs]
      exact ih acc h
    · rw [if_neg hs]
      refine ih _ (List.nodup_append.mpr ⟨h, List.nodup_singleton s, ?_⟩)
      intro a ha hb
      rw [List.mem_singleton] at hb
      exact hs (hb ▸ ha)

theorem mem_jsSetOf {l : List String} {x : String} : x ∈ jsSetOf l ↔ x ∈ l := by
  unfold jsSetOf
  rw [mem_foldl_jsSetAdd]
  simp

theorem nodup_jsSetOf (l : List String) : (jsSetOf l).Nodup :=
  nodup_foldl_jsSetAdd l [] List.nodup_nil

theorem length_eq_of_nodup_same_mem {l1 l2 : List String}
    (h1 : l1.Nodup) (h2 : l2.Nodup) (hm : ∀ x, x ∈ l1 ↔ x ∈ l2) :
    l1.length = l2.length := by
  rw [← List.toFinset_card_of_nodup h1, ← List.toFinset_card_of_nodup h2]
  congr 1
  ext x
  simpa using hm x

/-! ### Insertion sort lemmas -/

theorem mem_insertDescBy {α : Type} (key : α → ℚ) (x z : α) :
    ∀ l : List α, z ∈ insertDescBy key x l ↔ z = x ∨ z ∈ l
  | [] => by simp [insertDescBy]
  | y :: ys => by
    unfold insertDescBy
    split
    · rw [List.mem_cons, mem_insertDescBy key x z ys, List.mem_cons]
      tauto
    · simp only [List.mem_cons]

theorem pairwise_insertDescBy {α : Type} (key : α → ℚ) (x : α) :
    ∀ l : List α, l.Pairwise (fun a b => key b ≤ key a) →
      (insertDescBy key x l).Pairwise (fun a b => key b ≤ key a)
  | [], _ => List.pairwise_singleton _ _
  | y :: ys, h => by
    unfold insertDescBy
    rcases List.pairwise_cons.mp h with ⟨hy, hys⟩
    split
    · rename_i hle
      refine List.pairwise_cons.mpr ⟨?_, pairwise_insertDescBy key x ys hys⟩
      intro z hz
      rcases (mem_insertDescBy key x z ys).mp hz with rfl | hmem
      · exact hle
      · exact hy z hmem
    · rename_i hgt
      push_neg at hgt
      refine List.pairwise_cons.mpr ⟨?_, h⟩
      intro z hz
      rcases List.mem_cons.mp hz with rfl | hmem
      · exact le_of_lt hgt
      · exact le_trans (hy z hmem) (le_of_lt hgt)

theorem filter_insertDescBy {α : Type} (key : α → ℚ) (x : α) (q : ℚ) :
    ∀ l : List α, l.Pairwise (fun a b => key b ≤ key a) →
      (insertDescBy key x l).filter (fun z => decide (key z = q)) =
        l.filter (fun z => decide (key z = q)) ++
          (if key x = q then [x] else [])
  | [], _ => by
    simp only [insertDescBy, List.filter_nil, List.nil_append]
    by_cases hx : key x = q <;> simp [hx]
  | y :: ys, h => by
    unfold insertDescBy
    rcases List.pairwise_cons.mp h with ⟨hy, hys⟩
    split
    · rename_i hle
      by_cases hyq : key y = q <;>
        simp [List.filter_cons, hyq, filter_insertDescBy key x q ys hys]
    · rename_i hgt
      push_neg at hgt
      by_cases hxq : key x = q
      · have hyq : key y ≠ q := by
          intro hG
          rw [hxq] at hgt
          rw [hG] at hgt
          exact lt_irrefl q hgt
        have hysnil : ys.filter (fun z => decide (key z = q)) = [] := by
          apply List.filter_eq_nil_iff.mpr
          intro z hz
          simp only [decide_eq_true_eq]
          intro hG
          have hqq : q < q := by
            calc q = key z := hG.symm
            _ ≤ key y := hy z hz
            _ < key x := hgt
            _ = q := hxq
          exact lt_irrefl q hqq
        simp [List.filter_cons, hxq, hyq, hysnil]
      · by_cases hyq : key y = q <;>
          simp [List.filter_cons, hxq, hyq]

theorem sortDescBy_foldl_props {α : Type} (key : α → ℚ) (q : ℚ) :
    ∀ (l acc : List α), acc.Pairwise (fun a b => key b ≤ key a) →
      (l.foldl (fun acc x => insertDescBy key x acc) acc).Pairwise
          (fun a b => key b ≤ key a) ∧
        (l.foldl (fun acc x => insertDescBy key x acc) acc).filter
            (fun z => decide (key z = q)) =
          acc.filter (fun z => decide (key z = q)) ++
            l.filter (fun z => decide (key z = q))
  | [], acc, h => by simpa using h
  | x :: xs, acc, h => by
    simp only [List.foldl_cons]
    have hacc' := pairwise_insertDescBy key x acc h
    rcases sortDescBy_foldl_props key q xs (insertDescBy key x acc) hacc' with ⟨hp, hf⟩
    refine ⟨hp, ?_⟩
    rw [hf, filter_insertDescBy key x q acc h, List.filter_cons]
    by_cases hxq : key x = q <;> simp [hxq]

theorem sortDescBy_pairwise {α : Type} (key : α → ℚ) (l : List α) :
    (sortDescBy key l).Pairwise (fun a b => key b ≤ key a) :=
  (sortDescBy_foldl_props key 0 l [] List.Pairwise.nil).1

theorem sortDescBy_filter_eq {α : Type} (key : α → ℚ) (q : ℚ) (l : List α) :
    (sortDescBy key l).filter (fun z => decide (key z = q)) =
      l.filter (fun z => decide (key z = q)) := by
  have := (sortDescBy_foldl_props key q l [] List.Pairwise.nil).2
  simpa using this

theorem mem_sortDescBy_foldl {α : Type} (key : α → ℚ) (z : α) :
    ∀ (l acc : List α),
      z ∈ l.foldl (fun acc x => insertDescBy key x acc) acc ↔ z ∈ acc ∨ z ∈ l
  | [], acc => by simp
  | x :: xs, acc => by
    simp only [List.foldl_cons]
    rw [mem_sortDescBy_foldl key z xs (insertDescBy key x acc),
      mem_insertDescBy key x z acc, List.mem_cons]
    tauto

theorem mem_sortDescBy {α : Type} (key : α → ℚ) (z : α) (l : List α) :
    z ∈ sortDescBy key l ↔ z ∈ l := by
  unfold sortDescBy
  rw [mem_sortDescBy_foldl key z l []]
  simp

theorem filter_take_ex {α : Type} (p : α → Bool) :
    ∀ (l : List α) (n : Nat), ∃ m, (l.take n).filter p = (l.filter p).take m
  | [], n => ⟨0, by simp⟩
  | x :: xs, 0 => ⟨0, by simp⟩
  | x :: xs, n + 1 => by
    rcases filter_take_ex p xs n with ⟨m, hm⟩
    by_cases hx : p x
    · exact ⟨m + 1, by simp [List.filter_cons, hx, hm]⟩
    · exact ⟨m, by simp [List.filter_cons, hx, hm]⟩

theorem splitByMAux_ne_nil (m : SepMatcher) :
    ∀ (fuel : Nat) (atStart : Bool) (acc s : Str),
      splitByMAux m fuel atStart acc s ≠ []
  | 0, _, acc, s => by simp [splitByMAux]
  | _ + 1, _, acc, [] => by simp [splitByMAux]
  | fuel + 1, atStart, acc, c :: cs => by
    unfold splitByMAux
    split
    · split
      · exact splitByMAux_ne_nil m fuel false (c :: acc) cs
      · simp
    · exact splitByMAux_ne_nil m fuel false (c :: acc) cs

theorem splitByM_length_pos (m : SepMatcher) (s : Str) : 1 ≤ (splitByM m s).length :=
  List.length_pos.mpr (splitByMAux_ne_nil m (s.length + 1) true [] s)

theorem scoreAgainst_eq_spec (recipe r : Recipe) :
    scoreAgainst (jsSetOf (recipe.ingredients.map jsToLowerS)) r =
      ⟨r, similarityScoreSpec recipe r, multisharedCount recipe r,
        sharedLowerSpec recipe r⟩ := by
  unfold scoreAgainst
  have hfilter :
      (r.ingredients.map jsToLowerS).filter
          (fun i => decide (i ∈ jsSetOf (recipe.ingredients.map jsToLowerS))) =
        (r.ingredients.map jsToLowerS).filter
          (fun i => decide (i ∈ recipe.ingredients.map jsToLowerS)) :=
    List.filter_congr (fun x _ => decide_eq_decide.mpr mem_jsSetOf)
  have hunion :
      (jsSetOf (jsSetOf (recipe.ingredients.map jsToLowerS) ++
          r.ingredients.map jsToLowerS)).length = unionSizeCI recipe r := by
    apply length_eq_of_nodup_same_mem (nodup_jsSetOf _) (List.nodup_dedup _)
    intro x
    rw [mem_jsSetOf, List.mem_dedup, List.mem_append, List.mem_append, mem_jsSetOf]
  have hshared :
      ((r.ingredients.map jsToLowerS).filter
          (fun i => decide (i ∈ jsSetOf (recipe.ingredients.map jsToLowerS)))).length =
        multisharedCount recipe r := by
    rw [hfilter]; rfl
  refine SimilarItem.mk.injEq .. ▸ ?_
  refine ⟨rfl, ?_, hshared, by rw [hfilter]; rfl⟩
  rw [hshared, hunion]
  unfold similarityScoreSpec
  by_cases hz : unionSizeCI recipe r = 0
  · simp [hz]
  · have : 0 < unionSizeCI recipe r := Nat.pos_of_ne_zero hz
    simp [hz, this]

/-! ## Claim theorems -/

set_option maxRecDepth 200000

/-- C1 counterexample: the claim fails on the JSON path.  The JSON
payload `{"title":"Bean Dip","ingredients":[]}` (an empty ingredients
array) produces a record whose ingredient list is empty, so not every
record returned by the importer has a non-empty ingredients list. -/
theorem C1_counterexample :
    parseJSON [c1Json] = [c1JsonRecord] ∧ c1JsonRecord.ingredients = [] :=
  ⟨by decide, by decide⟩

/-- C1 amended: every record produced by the free-text path has a
non-empty title and a non-empty ingredient list, and a block lacking
a usable title or ingredient list produces no record; on the JSON
path every record has a non-empty title, but the ingredient list may
be empty (when the payload's ingredients field is an empty array). -/
theorem C1_amended :
    (∀ (text : String) (r : Recipe), r ∈ parseText text →
        r.title ≠ "" ∧ r.ingredients ≠ []) ∧
    (∀ block : Str, titleOf (linesOf block) = [] ∨ ingredientsOf block = [] →
        parseRecipeBlock block = none) ∧
    (∀ (data : List JsonRecipe) (r : Recipe), r ∈ parseJSON data → r.title ≠ "") := by
  refine ⟨?_, ?_, ?_⟩
  · intro text r hr
    rcases List.mem_filterMap.mp hr with ⟨b, _, hb⟩
    rcases parseRecipeBlock_eq_some hb with ⟨heq, ht, hi, _⟩
    subst heq
    exact ⟨(mk_ne_empty_iff _).mpr ht, fun hG => hi (List.map_eq_nil_iff.mp hG)⟩
  · intro block h
    unfold parseRecipeBlock
    split
    · rfl
    · split
      · rfl
      · rename_i hlen htitle
        rw [if_neg]
        rintro ⟨ht, hi⟩
        rcases h with h | h
        · exact htitle h
        · exact hi h
  · intro data r hr
    rcases List.mem_map.mp hr with ⟨jr, -, hjr⟩
    subst hjr
    show jsOr jr.title "Untitled Recipe" ≠ ""
    unfold jsOr
    cases jr.title with
    | none => decide
    | some s =>
      show (if s = "" then "Untitled Recipe" else s) ≠ ""
      by_cases hse : s = ""
      · rw [if_pos hse]
        decide
      · rw [if_neg hse]
        exact hse

/-- C1 witness: the theorem applied to the concrete import of
`c1Text`. -/
theorem C1_witness : c1Record.title ≠ "" ∧ c1Record.ingredients ≠ [] :=
  C1_amended.1 c1Text c1Record (by decide)

/-- C2 counterexample: the block `c2Block` carries the explicit tag
line `region: ASIA`; the parser stores the lowercased candidate
`"asia"`, which is not a member of the configured option set
(`"Asia"` is). -/
theorem C2_counterexample :
    parseRecipeBlock c2Block = some c2Record ∧
    "asia" ∈ c2Record.tags.region ∧ "asia" ∉ tagCatRegion.options :=
  ⟨by decide, by decide, by decide⟩

/-- C2 amended: every tag value of a parsed record is either a
member of the category's configured option set (the whole-block
fallback stores the option itself) or the lowercase form of a member
(explicit tag lines store the lowercased candidate); non-matching
candidates are discarded. -/
theorem C2_amended :
    ∀ (block : Str) (r : Recipe), parseRecipeBlock block = some r →
      (∀ v ∈ r.tags.type, ∃ o ∈ tagCatType.options, o = v ∨ jsToLowerS o = v) ∧
      (∀ v ∈ r.tags.region, ∃ o ∈ tagCatRegion.options, o = v ∨ jsToLowerS o = v) ∧
      (∀ v ∈ r.tags.meal, ∃ o ∈ tagCatMeal.options, o = v ∨ jsToLowerS o = v) ∧
      (∀ v ∈ r.tags.source, ∃ o ∈ tagCatSource.options, o = v ∨ jsToLowerS o = v) := by
  intro block r h
  rcases parseRecipeBlock_eq_some h with ⟨heq, -, -, -⟩
  subst heq
  exact ⟨fun v hv => mem_tagsForOptions hv, fun v hv => mem_tagsForOptions hv,
    fun v hv => mem_tagsForOptions hv, fun v hv => mem_tagsForOptions hv⟩

/-- C2 witness: the amended theorem applied at `c2Block`, whose
region tag `"asia"` is the lowercase form of the option `"Asia"`. -/
theorem C2_witness :
    ∃ o ∈ tagCatRegion.options, o = "asia" ∨ jsToLowerS o = "asia" :=
  (C2_amended c2Block c2Record (by decide)).2.1 "asia" (by decide)

/-- C3 counterexample: the end-to-end scenario yields exactly one
record, but its category is `"Soup"` (the keyword `soup` in the title
matches the category detection), not `"Main"` as claimed. -/
theorem C3_counterexample :
    (parseText tomatoText).map Recipe.category = ["Soup"] ∧ "Soup" ≠ "Main" :=
  ⟨by decide, by decide⟩

/-- C3 amended: the end-to-end scenario yields exactly one record
with title `"Tomato Soup"`, category `"Soup"`, the three ingredients,
the instructions sentence, and no notes. -/
theorem C3_amended : parseText tomatoText = [tomatoRecord] := by decide

/-- C4 counterexample: against the duplicate-listing candidate
`c4Cand`, the engine keeps the candidate with shared count 2 although
the case-insensitive intersection of the two ingredient *sets* has
size `1 < 2`, so the claimed set-intersection semantics (count =
intersection size, discard below 2) does not hold. -/
theorem C4_counterexample :
    (findSimilarRecipes c4Ref [c4Ref, c4Cand] 4).map (fun it => it.recipe) = [c4Cand] ∧
    (findSimilarRecipes c4Ref [c4Ref, c4Cand] 4).map (fun it => it.sharedCount) = [2] ∧
    setIntersectionSizeCI c4Cand.ingredients c4Ref.ingredients = 1 :=
  ⟨by decide, by decide, by decide⟩

/-- C4 amended: the engine excludes the reference by id, keeps only
candidates from the corpus, computes the shared count as the number
of candidate ingredient entries (lowercased, with multiplicity) found
among the reference's ingredients, keeps only counts of at least 2,
scores by that count over the size of the union of distinct
lowercased ingredients (0 when empty), carries the lowercased shared
entries, returns at most `maxResults` items sorted by descending
similarity, with ties kept in original corpus order (the result's
entries at any fixed score are a prefix of the eligible candidates at
that score, in corpus order). -/
theorem C4_amended :
    ∀ (recipe : Recipe) (corpus : List Recipe) (maxResults : Nat),
      (∀ item ∈ findSimilarRecipes recipe corpus maxResults,
          item.recipe ∈ corpus ∧ item.recipe.id ≠ recipe.id ∧
          item.sharedCount = multisharedCount recipe item.recipe ∧
          2 ≤ item.sharedCount ∧
          item.similarity = similarityScoreSpec recipe item.recipe ∧
          item.sharedIngredients = sharedLowerSpec recipe item.recipe) ∧
      (findSimilarRecipes recipe corpus maxResults).length ≤ maxResults ∧
      (findSimilarRecipes recipe corpus maxResults).Pairwise
        (fun a b => b.similarity ≤ a.similarity) ∧
      (∀ q : ℚ, ∃ m,
        (findSimilarRecipes recipe corpus maxResults).filter
            (fun it => decide (it.similarity = q)) =
          ((eligibleScored recipe corpus).filter
            (fun it => decide (it.similarity = q))).take m) := by
  intro recipe corpus maxResults
  unfold findSimilarRecipes
  by_cases hemp : corpus.isEmpty
  · rw [if_pos hemp]
    refine ⟨by simp, by simp, by simp, fun q => ⟨0, by simp⟩⟩
  · rw [if_neg hemp]
    refine ⟨?_, List.length_take_le _ _, ?_, ?_⟩
    · intro item hitem
      have hsorted : item ∈ sortDescBy (fun it => it.similarity)
          (eligibleScored recipe corpus) :=
        (List.take_sublist _ _).mem hitem
      have helig : item ∈ eligibleScored recipe corpus :=
        (mem_sortDescBy _ _ _).mp hsorted
      rcases List.mem_filter.mp helig with ⟨hmap, hcount⟩
      rcases List.mem_map.mp hmap with ⟨r, hrfil, hscore⟩
      rcases List.mem_filter.mp hrfil with ⟨hrcorp, hrid⟩
      rw [scoreAgainst_eq_spec] at hscore
      subst hscore
      refine ⟨hrcorp, by simpa using hrid, rfl, by simpa using hcount, rfl, rfl⟩
    · exact (sortDescBy_pairwise _ _).sublist (List.take_sublist _ _)
    · intro q
      rcases filter_take_ex (fun it => decide (it.similarity = q))
          (sortDescBy (fun it => it.similarity) (eligibleScored recipe corpus))
          maxResults with ⟨m, hm⟩
      exact ⟨m, by rw [hm, sortDescBy_filter_eq]⟩

/-- C4 witness: the amended theorem applied to the concrete corpus
`[c4Ref, c4Cand]` and its returned item. -/
theorem C4_witness :
    c4Item.recipe ∈ [c4Ref, c4Cand] ∧ c4Item.recipe.id ≠ c4Ref.id ∧
    c4Item.sharedCount = multisharedCount c4Ref c4Item.recipe ∧
    2 ≤ c4Item.sharedCount ∧
    c4Item.similarity = similarityScoreSpec c4Ref c4Item.recipe ∧
    c4Item.sharedIngredients = sharedLowerSpec c4Ref c4Item.recipe :=
  (C4_amended c4Ref [c4Ref, c4Cand] 4).1 c4Item
    (List.mem_singleton_self c4Item :
      c4Item ∈ ([c4Item] : List SimilarItem))

/-- C5: the importer takes the JSON path exactly when the trimmed
payload starts with `[` or `{` (observable as the hard parse-failure
outcome under a failing `JSON.parse`); the free-text path never
reports the parse failure; the number of records equals the number of
parseable blocks (a rejected block does not abort the others); and
the empty result is exactly the all-blocks-rejected outcome, a valid
non-error value. -/
theorem C5_importer :
    (∀ content : String,
        (handleImport (fun _ => none) content = ImportResult.parseFailure ↔
          startsJSON content = true)) ∧
    (∀ (jp : String → Option (List JsonRecipe)) (content : String),
        startsJSON content = false →
          handleImport jp content ≠ ImportResult.parseFailure) ∧
    (∀ text : String, (parseText text).length =
        (blocksOf text).countP (fun b => (parseRecipeBlock b).isSome)) ∧
    (∀ text : String,
        (parseText text = [] ↔ ∀ b ∈ blocksOf text, parseRecipeBlock b = none)) := by
  refine ⟨?_, ?_, ?_, ?_⟩
  · intro content
    unfold handleImport
    by_cases hs : startsJSON content
    · rw [if_pos hs]
      simp [hs]
    · rw [if_neg hs]
      constructor
      · intro h
        split at h <;> exact absurd h (by simp)
      · intro h
        exact absurd h (by simpa using hs)
  · intro jp content hs
    unfold handleImport
    rw [if_neg (by simp [hs])]
    split <;> simp
  · intro text
    exact length_filterMap_eq_countP parseRecipeBlock (blocksOf text)
  · intro text
    exact List.filterMap_eq_nil_iff

/-- C5 witness: a payload that does not sniff as JSON can never
produce the hard parse failure. -/
theorem C5_witness :
    handleImport (fun _ => none) "Just words" ≠ ImportResult.parseFailure :=
  C5_importer.2.1 (fun _ => none) "Just words" (by decide)

/-- C6 counterexample: a lone `===` line (three characters) does not
split under the first rule — the separator needs five or more
characters — while a `*****` line does split although `*` is not in
the claimed `=`/`-` set. -/
theorem C6_counterexample :
    (splitByM sepRuleM ("aaa\n===\nbbb").data).length = 1 ∧
    splitByM sepRuleM ("aaa\n*****\nbbb").data = ["aaa".data, "bbb".data] :=
  ⟨by decide, by decide⟩

/-- C6 amended: the splitter applies its rules in order and the
first rule producing more than one block wins, with rule 1 splitting
on separator lines of five or more characters drawn from `=`, `-`,
`*` that are both preceded and followed by a line break; only when
rule 1 leaves a single block is the blank-lines-before-title rule
tried, and only then the Markdown-heading rule. -/
theorem C6_amended :
    ∀ text : String,
      1 ≤ (splitByM sepRuleM (normText text)).length ∧
      ((splitByM sepRuleM (normText text)).length ≠ 1 →
        blocksStage (normText text) = splitByM sepRuleM (normText text)) ∧
      ((splitByM sepRuleM (normText text)).length = 1 →
        (splitByM blankTitleRuleM (normText text)).length ≠ 1 →
          blocksStage (normText text) = splitByM blankTitleRuleM (normText text)) ∧
      ((splitByM sepRuleM (normText text)).length = 1 →
        (splitByM blankTitleRuleM (normText text)).length = 1 →
          blocksStage (normText text) = splitByM headingRuleM (normText text)) := by
  intro text
  refine ⟨splitByM_length_pos _ _, ?_, ?_, ?_⟩
  · intro h1
    unfold blocksStage
    rw [if_neg h1]
  · intro h1 h2
    unfold blocksStage
    rw [if_pos h1, if_neg h2]
  · intro h1 h2
    unfold blocksStage
    rw [if_pos h1, if_pos h2]

/-- C6 witness: on a text with a five-character separator line, rule
1 wins. -/
theorem C6_witness :
    blocksStage (normText "A\n=====\nB") = splitByM sepRuleM (normText "A\n=====\nB") :=
  (C6_amended "A\n=====\nB").2.1 (by decide)

/-- C7: every block the splitter passes on is a trimmed split piece
whose length exceeds the threshold 30 (a value in the claimed 30–50
range); `parseText` consumes exactly this filtered list, so shorter
blocks never reach the block parser. -/
theorem C7_blocks :
    ∀ (text : String) (b : Str), b ∈ blocksOf text →
      30 < b.length ∧ ∃ raw ∈ blocksStage (normText text), b = jsTrim raw := by
  intro text b hb
  rcases List.mem_filter.mp hb with ⟨hmem, hlen⟩
  rcases List.mem_map.mp hmem with ⟨raw, hraw, htrim⟩
  exact ⟨by simpa using hlen, raw, hraw, htrim.symm⟩

/-- C7 witness: the theorem applied to the single block of
`c1Text`. -/
theorem C7_witness :
    30 < (c1Text.data : Str).length ∧
    ∃ raw ∈ blocksStage (normText c1Text), c1Text.data = jsTrim raw :=
  C7_blocks c1Text c1Text.data (by decide)

/-- C8: every accepted record has non-empty instructions, and when
the extraction pipeline (header patterns plus the post-ingredients
fallback) recovers nothing, the field is the sentinel
`"No instructions provided"` and the record is still emitted. -/
theorem C8_instructions :
    ∀ (block : Str) (r : Recipe), parseRecipeBlock block = some r →
      r.instructions ≠ "" ∧
      (instructionsOf block (ingredientsOf block) = [] →
        r.instructions = "No instructions provided") := by
  intro block r h
  rcases parseRecipeBlock_eq_some h with ⟨heq, -, -, -⟩
  subst heq
  constructor
  · show String.mk (finalInstructions block) ≠ ""
    apply (mk_ne_empty_iff _).mpr
    unfold finalInstructions
    by_cases hi : instructionsOf block (ingredientsOf block) = []
    · rw [if_pos hi]
      decide
    · rw [if_neg hi]
      exact hi
  · intro hnone
    show String.mk (finalInstructions block) = "No instructions provided"
    unfold finalInstructions
    rw [if_pos hnone]
    rfl

/-- C8 witness: the theorem applied to `c8Block`, whose record
carries the sentinel. -/
theorem C8_witness :
    c8Record.instructions ≠ "" ∧
    (instructionsOf c8Block (ingredientsOf c8Block) = [] →
      c8Record.instructions = "No instructions provided") :=
  C8_instructions c8Block c8Record (by decide)

/-- C9: serializing recipes to JSON and re-importing through the
JSON path reproduces the titles, the categories and the ingredient
lists, in order, whenever every record has a non-empty title and a
non-empty category (ids are regenerated).  The builtin
`JSON.parse ∘ JSON.stringify` round trip is modelled as the identity
`recipeToJson` on these plain string/list fields. -/
theorem C9_roundTrip :
    ∀ rs : List Recipe, (∀ r ∈ rs, r.title ≠ "" ∧ r.category ≠ "") →
      (parseJSON (rs.map recipeToJson)).map Recipe.title = rs.map Recipe.title ∧
      (parseJSON (rs.map recipeToJson)).map Recipe.category = rs.map Recipe.category ∧
      (parseJSON (rs.map recipeToJson)).map Recipe.ingredients =
        rs.map Recipe.ingredients := by
  intro rs h
  unfold parseJSON
  simp only [List.map_map]
  refine ⟨List.map_congr_left ?_, List.map_congr_left ?_, List.map_congr_left ?_⟩
  · intro r hr
    show (if r.title = "" then "Untitled Recipe" else r.title) = r.title
    rw [if_neg (h r hr).1]
  · intro r hr
    show (if r.category = "" then "Main" else r.category) = r.category
    rw [if_neg (h r hr).2]
  · intro r _
    rfl

/-- C9 witness: the round trip on the concrete list `c9List`. -/
theorem C9_witness :
    (parseJSON (c9List.map recipeToJson)).map Recipe.title = c9List.map Recipe.title ∧
    (parseJSON (c9List.map recipeToJson)).map Recipe.category =
      c9List.map Recipe.category ∧
    (parseJSON (c9List.map recipeToJson)).map Recipe.ingredients =
      c9List.map Recipe.ingredients :=
  C9_roundTrip c9List (by decide)

/-- C10: any block with fewer than three non-empty lines is rejected
outright, before any field extraction runs. -/
theorem C10_minLines :
    ∀ block : Str, (linesOf block).length < 3 → parseRecipeBlock block = none := by
  intro block h
  unfold parseRecipeBlock
  rw [if_pos h]

/-- C10 witness: a two-line block with a valid title and an inline
ingredient line is rejected. -/
theorem C10_witness :
    (linesOf c10Block).length < 3 ∧ parseRecipeBlock c10Block = none :=
  ⟨by decide, C10_minLines c10Block (by decide)⟩

end OurRecipes
